import Mathlib

/-
Shallow embedding of src/advanced-vector/vector.h: the RawMemory storage
helper and the Vector container built on it.

Modelling conventions:
- A raw buffer is a list of optional values: a slot holding `none` is
  uninitialized memory, a slot holding `some x` is a live object of value x.
  The length of the list is the capacity of the block.
- Copy construction, copy assignment, move construction and move assignment
  of elements all transfer the value into the destination slot.  Treating a
  move as a value copy is exact for trivially copyable element types such as
  int, which the concrete examples of the specification use; for other types
  the moved-from slot keeps a live object of unspecified value, and no
  theorem below depends on the value of a moved-from slot.
- Reading a slot out of range, or writing out of range, corresponds to
  undefined behavior in the C++; the model reads `none` and drops the write.
  Theorems carry the bounds under which the real code is defined.
-/

namespace AdvVec

/-- A buffer of raw slots: `none` means uninitialized memory. -/
abbrev Buf (α : Type) := List (Option α)

/-- Read slot `i` of a buffer; out of range reads give `none`. -/
def bufGet {α : Type} (b : Buf α) (i : Nat) : Option α :=
  b.getD i none

/-- Write slot `i` of a buffer; out of range writes are dropped. -/
def bufSet {α : Type} (b : Buf α) (i : Nat) (x : Option α) : Buf α :=
  b.set i x

/-- RawMemory\<T\>: owns a block of `capacity` uninitialized slots
(vector.h lines 10-86).  `buffer` of length `capacity_`. -/
structure RawMemory (α : Type) where
  buffer : Buf α
deriving DecidableEq

/-- RawMemory::Capacity (vector.h line 69): the slot count of the block. -/
def RawMemory.capacity {α : Type} (m : RawMemory α) : Nat :=
  m.buffer.length

/-- RawMemory::Allocate (vector.h line 75): `n` fresh uninitialized slots. -/
def RawMemory.allocate (α : Type) (n : Nat) : RawMemory α :=
  ⟨List.replicate n none⟩

/-- std::destroy_n(b + first, n): ends the lifetime of the objects in slots
[first, first + n), leaving the slots as raw memory. -/
def destroyN {α : Type} (b : Buf α) (first : Nat) : Nat → Buf α
  | 0 => b
  | n + 1 => destroyN (bufSet b first none) (first + 1) n

/-- std::uninitialized_copy_n(src + srcFirst, n, dst + dstFirst) and
std::uninitialized_move_n: construct n elements in dst from the values in
src, in increasing index order.  The same definition also models the
element-wise copy-assignment loops of the copy-assignment operator, since
assignment too transfers the value into the destination slot. -/
def uninitCopyN {α : Type} (src : Buf α) : Nat → Nat → Buf α → Nat → Buf α
  | _, 0, dst, _ => dst
  | srcFirst, n + 1, dst, dstFirst =>
      uninitCopyN src (srcFirst + 1) n
        (bufSet dst dstFirst (bufGet src srcFirst)) (dstFirst + 1)

/-- One step per element of std::move(first, last, dfirst): forward order,
`n` elements, assigning slot dfirst + k from slot first + k. -/
def moveForwardAux {α : Type} (b : Buf α) : Nat → Nat → Nat → Buf α
  | _, _, 0 => b
  | first, dfirst, n + 1 =>
      moveForwardAux (bufSet b dfirst (bufGet b first)) (first + 1) (dfirst + 1) n

/-- std::move(b + first, b + last, b + dfirst): move-assigns [first, last)
onto [dfirst, dfirst + (last - first)) in forward order. -/
def moveForward {α : Type} (b : Buf α) (first last dfirst : Nat) : Buf α :=
  moveForwardAux b first dfirst (last - first)

/-- One step per element of std::move_backward: reverse order, `n` elements,
assigning slot dlast - 1 - k from slot last - 1 - k. -/
def moveBackwardAux {α : Type} (b : Buf α) : Nat → Nat → Nat → Buf α
  | _, _, 0 => b
  | last, dlast, n + 1 =>
      moveBackwardAux (bufSet b (dlast - 1) (bufGet b (last - 1))) (last - 1) (dlast - 1) n

/-- std::move_backward(b + first, b + last, b + dlast): move-assigns
[first, last) onto the range ending at dlast, last element first.  The C++
requires first ≤ last; the model moves `last - first` elements, hence zero
when the range is invalid, where the real code has undefined behavior. -/
def moveBackward {α : Type} (b : Buf α) (first last dlast : Nat) : Buf α :=
  moveBackwardAux b last dlast (last - first)

/-- Vector\<T\> (vector.h lines 88-368): a RawMemory block plus the count of
live elements. -/
structure Vector (α : Type) where
  data : RawMemory α
  size : Nat
deriving DecidableEq

namespace Vector

/-- Vector::Vector() (line 94): null storage, size 0. -/
def mkEmpty (α : Type) : Vector α :=
  ⟨⟨[]⟩, 0⟩

/-- Vector::Capacity (line 160). -/
def capacity {α : Type} (v : Vector α) : Nat :=
  v.data.capacity

/-- Vector::operator[] (line 168): defined for index < size, a debug-only
assertion otherwise. -/
def elemAt {α : Type} (v : Vector α) (i : Nat) : Option α :=
  bufGet v.data.buffer i

/-- The live element sequence: slots [0, size). -/
def elems {α : Type} (v : Vector α) : Buf α :=
  v.data.buffer.take v.size

/-- Vector(size_t size) (lines 96-101): capacity size, size value-constructed
elements; value construction of the element type yields its default value. -/
def mkSized (α : Type) [Inhabited α] (n : Nat) : Vector α :=
  ⟨⟨List.replicate n (some default)⟩, n⟩

/-- Vector(const Vector&) (lines 103-108): capacity other.size, elements
copy-constructed from other. -/
def copyConstruct {α : Type} (other : Vector α) : Vector α :=
  ⟨⟨uninitCopyN other.data.buffer 0 other.size
      (List.replicate other.size none) 0⟩, other.size⟩

/-- Vector(Vector&&) (lines 110-111): steals the storage; the source is left
with null storage (RawMemory move swaps with a default instance) and size 0.
Returns (constructed vector, source after the move). -/
def moveConstruct {α : Type} (other : Vector α) : Vector α × Vector α :=
  (⟨other.data, other.size⟩, ⟨⟨[]⟩, 0⟩)

/-- Vector::operator=(const Vector&) (lines 120-146) for distinct objects:
three cases on other.size against this capacity and size. -/
def copyAssign {α : Type} (v other : Vector α) : Vector α :=
  if other.size > v.capacity then
    copyConstruct other
  else if other.size < v.size then
    let b1 := uninitCopyN other.data.buffer 0 other.size v.data.buffer 0
    ⟨⟨destroyN b1 other.size (v.size - other.size)⟩, other.size⟩
  else
    let b1 := uninitCopyN other.data.buffer 0 v.size v.data.buffer 0
    ⟨⟨uninitCopyN other.data.buffer v.size (other.size - v.size) b1 v.size⟩,
      other.size⟩

/-- Vector::operator=(Vector&&) (lines 148-154) for distinct objects: swaps
storage and size wholesale.  Returns (this after, other after). -/
def moveAssign {α : Type} (v other : Vector α) : Vector α × Vector α :=
  (other, v)

/-- Vector::Swap (lines 249-252): exchanges storage and size. -/
def swapWith {α : Type} (v other : Vector α) : Vector α × Vector α :=
  (other, v)

/-- Vector::Reserve (lines 220-233): no-op when newCapacity ≤ capacity, else
a fresh block of newCapacity slots receives the size live elements (by move
or copy, value transfer either way), the old elements are destroyed and the
blocks are swapped; the old block is released. -/
def reserve {α : Type} (v : Vector α) (newCapacity : Nat) : Vector α :=
  if newCapacity ≤ v.capacity then v
  else
    ⟨⟨uninitCopyN v.data.buffer 0 v.size
        (RawMemory.allocate α newCapacity).buffer 0⟩, v.size⟩

/-- Vector::PushBack (lines 173-213, both overloads transfer the value):
Reserve(1) when capacity is 0; then either reallocate to capacity * 2 with
the new element constructed at slot size before the transfer, or construct
in place at slot size. -/
def pushBack {α : Type} (v : Vector α) (value : α) : Vector α :=
  let v1 := if v.capacity = 0 then v.reserve 1 else v
  if v1.size = v1.capacity then
    let b1 := bufSet (RawMemory.allocate α (v1.capacity * 2)).buffer
      v1.size (some value)
    ⟨⟨uninitCopyN v1.data.buffer 0 v1.size b1 0⟩, v1.size + 1⟩
  else
    ⟨⟨bufSet v1.data.buffer v1.size (some value)⟩, v1.size + 1⟩

/-- Vector::PopBack (lines 215-218): destroys the last element; defined for
size > 0, a debug-only assertion otherwise. -/
def popBack {α : Type} (v : Vector α) : Vector α :=
  ⟨⟨bufSet v.data.buffer (v.size - 1) none⟩, v.size - 1⟩

/-- Vector::Resize (lines 235-247): grow by reserve plus value construction
of the new tail, shrink by destroying the dropped suffix. -/
def resize {α : Type} [Inhabited α] (v : Vector α) (newSize : Nat) : Vector α :=
  if v.size < newSize then
    let v1 := if v.capacity < newSize then v.reserve newSize else v
    ⟨⟨uninitCopyN (List.replicate (newSize - v1.size) (some (default : α)))
        0 (newSize - v1.size) v1.data.buffer v1.size⟩, newSize⟩
  else if newSize < v.size then
    ⟨⟨destroyN v.data.buffer newSize (v.size - newSize)⟩, newSize⟩
  else v

/-- Vector::Emplace (lines 280-335) with the new element already constructed
from the arguments (both code paths construct it before touching data_).
Returns (vector after, index of the returned iterator).

Reallocation path (size == capacity): fresh block of max(1, capacity * 2)
slots, new element constructed at slot index, prefix [0, index) transferred
to [0, index), suffix [index, size) transferred to [index + 1, size + 1).

In-place path (size < capacity), exactly as the active code at lines
325-333: move_backward(data + size - 1, data + size, data + size) whose
destination range is [size - 1, size), that is a self-move-assignment of the
last element, NOT a construction into slot size; then
move_backward(data + index, data + size - 1, data + size) shifting
[index, size - 1) onto [index + 1, size); then the scratch value is
placement-constructed at slot index.  With size = 0 the first call reads
slot -1 and with index = size the second call gets an invalid range, both
undefined behavior in the C++. -/
def emplace {α : Type} (v : Vector α) (index : Nat) (value : α) :
    Vector α × Nat :=
  if v.size = v.capacity then
    let b1 := bufSet (RawMemory.allocate α
      (if v.size = 0 then 1 else v.capacity * 2)).buffer index (some value)
    let b2 := uninitCopyN v.data.buffer 0 index b1 0
    let b3 := uninitCopyN v.data.buffer index (v.size - index) b2 (index + 1)
    (⟨⟨b3⟩, v.size + 1⟩, index)
  else
    let b1 := moveBackward v.data.buffer (v.size - 1) v.size v.size
    let b2 := moveBackward b1 index (v.size - 1) v.size
    (⟨⟨bufSet b2 index (some value)⟩, v.size + 1⟩, index)

/-- Vector::Insert(pos, const T& value) (lines 254-266) where the argument
aliases element srcIdx of the vector itself: the address check finds the
value inside [data_[0], data_[size_ - 1]], so a copy T(value) is taken first
and Emplace receives the copied value. -/
def insertAliased {α : Type} (v : Vector α) (index srcIdx : Nat) :
    Vector α × Nat :=
  match bufGet v.data.buffer srcIdx with
  | some x => v.emplace index x
  | none => (v, index)

/-- Vector::Erase (lines 271-278): defined for begin ≤ pos < end; shifts
[index + 1, size) onto [index, size - 1) in forward order, destroys slot
size - 1, decrements size, returns the iterator at index. -/
def erase {α : Type} (v : Vector α) (index : Nat) : Vector α × Nat :=
  let b1 := moveForward v.data.buffer (index + 1) v.size index
  (⟨⟨bufSet b1 (v.size - 1) none⟩, v.size - 1⟩, index)

/-- Vector::EmplaceBack (lines 337-359): same growth logic as PushBack with
the element constructed from the arguments; returns (vector after, index of
the returned reference data_[size_ - 1]). -/
def emplaceBack {α : Type} (v : Vector α) (value : α) : Vector α × Nat :=
  let v1 := if v.capacity = 0 then v.reserve 1 else v
  let v2 :=
    if v1.size = v1.capacity then
      let b1 := bufSet (RawMemory.allocate α (v1.capacity * 2)).buffer
        v1.size (some value)
      (⟨⟨uninitCopyN v1.data.buffer 0 v1.size b1 0⟩, v1.size + 1⟩ : Vector α)
    else
      ⟨⟨bufSet v1.data.buffer v1.size (some value)⟩, v1.size + 1⟩
  (v2, v2.size - 1)

/-- The container invariant of the specification: size ≤ capacity, slots
[0, size) hold live objects, slots [size, capacity) are uninitialized. -/
def invariantHolds {α : Type} (v : Vector α) : Prop :=
  v.size ≤ v.capacity ∧
    (∀ i, i < v.size → (v.elemAt i).isSome = true) ∧
    (∀ i, v.size ≤ i → i < v.capacity → v.elemAt i = none)

instance {α : Type} [DecidableEq α] (v : Vector α) :
    Decidable (invariantHolds v) := by
  unfold invariantHolds
  infer_instance

/-- PushBack when constructing the new element from the value throws: when
capacity was 0 the code has already completed Reserve(1) (which constructs
no elements, size being 0 ≤ capacity 0); after that both branches throw at
the placement-new before mutating data_ or size_, and the reallocation
branch releases its local block during unwinding.  The state after the
exception propagates is therefore the vector after the conditional Reserve. -/
def pushBackThrowingCtor {α : Type} (v : Vector α) : Vector α :=
  if v.capacity = 0 then v.reserve 1 else v

/-- Emplace when constructing the new element from the arguments throws:
the reallocation branch constructs it into the local new_data block, whose
destructor releases the block during unwinding; the in-place branch
constructs it with new T(args...), whose allocation is released when the
constructor throws.  Neither branch has touched data_ or size_ yet, so the
vector is unchanged. -/
def emplaceThrowingCtor {α : Type} (v : Vector α) (index : Nat) : Vector α :=
  v

/-- Reserve when an element copy construction throws mid-transfer (the copy
branch, taken when the move constructor may throw and the type is copyable):
uninitialized_copy_n destroys the elements it already constructed and
rethrows, and the local new_data block is released during unwinding; data_
and size_ are untouched, so the vector is unchanged. -/
def reserveThrowingCopy {α : Type} (v : Vector α) (newCapacity : Nat) :
    Vector α :=
  v

/-- Copy-assignment in the branch other.size > capacity when the temporary
copy construction Vector rhs_copy(other) throws: the partially constructed
elements are destroyed by uninitialized_copy_n, the temporary block is
released during unwinding, and this vector has not been touched yet, so it
is unchanged. -/
def copyAssignThrowingCopy {α : Type} (v other : Vector α) : Vector α :=
  v

end Vector

/-- The vector holding 1, 2, 3 built by three pushes from empty: its
capacity snapshots are 0, 1, 2, 4, so it ends with size 3 and capacity 4. -/
def vec123 : Vector Nat :=
  (((Vector.mkEmpty Nat).pushBack 1).pushBack 2).pushBack 3

theorem length_bufSet {α : Type} (b : Buf α) (i : Nat) (x : Option α) :
    (bufSet b i x).length = b.length := by
  simp [bufSet]

theorem bufGet_bufSet {α : Type} (b : Buf α) (i j : Nat) (x : Option α) :
    bufGet (bufSet b i x) j =
      if i = j ∧ i < b.length then x else bufGet b j := by
  induction b generalizing i j with
  | nil => simp [bufSet, bufGet]
  | cons a t ih =>
      cases i with
      | zero =>
          cases j with
          | zero => simp [bufSet, bufGet]
          | succ j => simp [bufSet, bufGet, List.getD]
      | succ i =>
          cases j with
          | zero => simp [bufSet, bufGet, List.getD]
          | succ j =>
              have h := ih i j
              simp only [bufSet, bufGet, List.set, List.getD_cons_succ,
                List.length_cons] at h ⊢
              rw [h]
              by_cases hij : i = j <;> simp [hij, Nat.succ_lt_succ_iff]

theorem bufGet_out_of_range {α : Type} (b : Buf α) (i : Nat)
    (h : b.length ≤ i) : bufGet b i = none := by
  simp [bufGet, List.getD_eq_getElem?_getD, List.getElem?_eq_none h]

theorem length_destroyN {α : Type} (n : Nat) (b : Buf α) (first : Nat) :
    (destroyN b first n).length = b.length := by
  induction n generalizing b first with
  | zero => rfl
  | succ n ih => simp [destroyN, ih, length_bufSet]

theorem length_uninitCopyN {α : Type} (n : Nat) (src : Buf α)
    (srcFirst : Nat) (dst : Buf α) (dstFirst : Nat) :
    (uninitCopyN src srcFirst n dst dstFirst).length = dst.length := by
  induction n generalizing srcFirst dst dstFirst with
  | zero => rfl
  | succ n ih => simp [uninitCopyN, ih, length_bufSet]

theorem length_moveForwardAux {α : Type} (n : Nat) (b : Buf α)
    (first dfirst : Nat) :
    (moveForwardAux b first dfirst n).length = b.length := by
  induction n generalizing b first dfirst with
  | zero => rfl
  | succ n ih => simp [moveForwardAux, ih, length_bufSet]

theorem length_moveBackwardAux {α : Type} (n : Nat) (b : Buf α)
    (last dlast : Nat) :
    (moveBackwardAux b last dlast n).length = b.length := by
  induction n generalizing b last dlast with
  | zero => rfl
  | succ n ih => simp [moveBackwardAux, ih, length_bufSet]

theorem bufGet_destroyN {α : Type} (n : Nat) (b : Buf α) (first i : Nat) :
    bufGet (destroyN b first n) i =
      if first ≤ i ∧ i < first + n then none else bufGet b i := by
  induction n generalizing b first with
  | zero =>
      simp only [destroyN]
      rw [if_neg (show ¬ (first ≤ i ∧ i < first + 0) by omega)]
  | succ n ih =>
      simp only [destroyN]
      rw [ih (bufSet b first none) (first + 1), bufGet_bufSet]
      rcases Nat.lt_or_ge i b.length with hlen | hlen
      · by_cases hB : first + 1 ≤ i ∧ i < first + 1 + n
        · rw [if_pos hB,
            if_pos (show first ≤ i ∧ i < first + (n + 1) by omega)]
        · rw [if_neg hB]
          by_cases hC : first = i
          · rw [if_pos (show first = i ∧ first < b.length by omega),
              if_pos (show first ≤ i ∧ i < first + (n + 1) by omega)]
          · rw [if_neg (show ¬ (first = i ∧ first < b.length) by omega),
              if_neg (show ¬ (first ≤ i ∧ i < first + (n + 1)) by omega)]
      · have h0 : bufGet b i = none := bufGet_out_of_range b i hlen
        by_cases hB : first + 1 ≤ i ∧ i < first + 1 + n
        · rw [if_pos hB,
            if_pos (show first ≤ i ∧ i < first + (n + 1) by omega)]
        · rw [if_neg hB,
            if_neg (show ¬ (first = i ∧ first < b.length) by omega)]
          by_cases hA : first ≤ i ∧ i < first + (n + 1)
          · rw [if_pos hA, h0]
          · rw [if_neg hA]

theorem bufGet_uninitCopyN {α : Type} (n : Nat) (src : Buf α)
    (srcFirst : Nat) (dst : Buf α) (dstFirst : Nat)
    (hrange : dstFirst + n ≤ dst.length) (i : Nat) :
    bufGet (uninitCopyN src srcFirst n dst dstFirst) i =
      if dstFirst ≤ i ∧ i < dstFirst + n then
        bufGet src (srcFirst + (i - dstFirst))
      else bufGet dst i := by
  induction n generalizing srcFirst dst dstFirst with
  | zero =>
      simp only [uninitCopyN]
      rw [if_neg (show ¬ (dstFirst ≤ i ∧ i < dstFirst + 0) by omega)]
  | succ n ih =>
      simp only [uninitCopyN]
      rw [ih (srcFirst + 1) (bufSet dst dstFirst (bufGet src srcFirst))
          (dstFirst + 1) (by rw [length_bufSet]; omega), bufGet_bufSet]
      by_cases hB : dstFirst + 1 ≤ i ∧ i < dstFirst + 1 + n
      · rw [if_pos hB,
          if_pos (show dstFirst ≤ i ∧ i < dstFirst + (n + 1) by omega)]
        have h3 : srcFirst + 1 + (i - (dstFirst + 1)) =
            srcFirst + (i - dstFirst) := by omega
        rw [h3]
      · rw [if_neg hB]
        by_cases hC : dstFirst = i
        · rw [if_pos (show dstFirst = i ∧ dstFirst < dst.length by omega),
            if_pos (show dstFirst ≤ i ∧ i < dstFirst + (n + 1) by omega)]
          have h3 : srcFirst + (i - dstFirst) = srcFirst := by omega
          rw [h3]
        · rw [if_neg (show ¬ (dstFirst = i ∧ dstFirst < dst.length) by omega),
            if_neg (show ¬ (dstFirst ≤ i ∧ i < dstFirst + (n + 1)) by omega)]

theorem bufGet_moveForwardAux {α : Type} (n : Nat) (b : Buf α)
    (first dfirst : Nat) (hle : dfirst ≤ first)
    (hrange : first + n ≤ b.length) (i : Nat) :
    bufGet (moveForwardAux b first dfirst n) i =
      if dfirst ≤ i ∧ i < dfirst + n then
        bufGet b (first + (i - dfirst))
      else bufGet b i := by
  induction n generalizing b first dfirst with
  | zero =>
      simp only [moveForwardAux]
      rw [if_neg (show ¬ (dfirst ≤ i ∧ i < dfirst + 0) by omega)]
  | succ n ih =>
      simp only [moveForwardAux]
      rw [ih (bufSet b dfirst (bufGet b first)) (first + 1) (dfirst + 1)
          (by omega) (by rw [length_bufSet]; omega)]
      by_cases hB : dfirst + 1 ≤ i ∧ i < dfirst + 1 + n
      · rw [if_pos hB, bufGet_bufSet,
          if_neg (show ¬ (dfirst = first + 1 + (i - (dfirst + 1)) ∧
            dfirst < b.length) by omega),
          if_pos (show dfirst ≤ i ∧ i < dfirst + (n + 1) by omega)]
        have h3 : first + 1 + (i - (dfirst + 1)) = first + (i - dfirst) := by
          omega
        rw [h3]
      · rw [if_neg hB, bufGet_bufSet]
        by_cases hC : dfirst = i
        · rw [if_pos (show dfirst = i ∧ dfirst < b.length by omega),
            if_pos (show dfirst ≤ i ∧ i < dfirst + (n + 1) by omega)]
          have h3 : first + (i - dfirst) = first := by omega
          rw [h3]
        · rw [if_neg (show ¬ (dfirst = i ∧ dfirst < b.length) by omega),
            if_neg (show ¬ (dfirst ≤ i ∧ i < dfirst + (n + 1)) by omega)]

theorem bufGet_moveBackwardAux {α : Type} (n : Nat) (b : Buf α)
    (last dlast : Nat) (hle : last ≤ dlast) (hn : n ≤ last)
    (hrange : dlast ≤ b.length) (i : Nat) :
    bufGet (moveBackwardAux b last dlast n) i =
      if dlast - n ≤ i ∧ i < dlast then
        bufGet b (last - (dlast - i))
      else bufGet b i := by
  induction n generalizing b last dlast with
  | zero =>
      simp only [moveBackwardAux]
      rw [if_neg (show ¬ (dlast - 0 ≤ i ∧ i < dlast) by omega)]
  | succ n ih =>
      simp only [moveBackwardAux]
      rw [ih (bufSet b (dlast - 1) (bufGet b (last - 1))) (last - 1)
          (dlast - 1) (by omega) (by omega) (by rw [length_bufSet]; omega)]
      by_cases hB : dlast - 1 - n ≤ i ∧ i < dlast - 1
      · rw [if_pos hB, bufGet_bufSet,
          if_neg (show ¬ (dlast - 1 = last - 1 - (dlast - 1 - i) ∧
            dlast - 1 < b.length) by omega),
          if_pos (show dlast - (n + 1) ≤ i ∧ i < dlast by omega)]
        have h3 : last - 1 - (dlast - 1 - i) = last - (dlast - i) := by omega
        rw [h3]
      · rw [if_neg hB, bufGet_bufSet]
        by_cases hC : dlast - 1 = i
        · rw [if_pos (show dlast - 1 = i ∧ dlast - 1 < b.length by omega),
            if_pos (show dlast - (n + 1) ≤ i ∧ i < dlast by omega)]
          have h3 : last - (dlast - i) = last - 1 := by omega
          rw [h3]
        · rw [if_neg (show ¬ (dlast - 1 = i ∧ dlast - 1 < b.length) by omega),
            if_neg (show ¬ (dlast - (n + 1) ≤ i ∧ i < dlast) by omega)]

theorem Vector.size_reserve {α : Type} (v : Vector α) (n : Nat) :
    (v.reserve n).size = v.size := by
  unfold Vector.reserve
  by_cases h : n ≤ v.capacity
  · rw [if_pos h]
  · rw [if_neg h]

theorem Vector.capacity_reserve {α : Type} (v : Vector α) (n : Nat) :
    (v.reserve n).capacity = if n ≤ v.capacity then v.capacity else n := by
  unfold Vector.reserve
  by_cases h : n ≤ v.capacity
  · rw [if_pos h, if_pos h]
  · rw [if_neg h, if_neg h]
    simp [Vector.capacity, RawMemory.capacity, RawMemory.allocate,
      length_uninitCopyN]

theorem Vector.elemAt_reserve {α : Type} (v : Vector α) (n : Nat)
    (hwf : v.size ≤ v.capacity) (i : Nat) (hi : i < v.size) :
    (v.reserve n).elemAt i = v.elemAt i := by
  unfold Vector.reserve
  by_cases h : n ≤ v.capacity
  · rw [if_pos h]
  · rw [if_neg h]
    show bufGet (uninitCopyN v.data.buffer 0 v.size
      (RawMemory.allocate α n).buffer 0) i = v.elemAt i
    rw [bufGet_uninitCopyN v.size v.data.buffer 0
      (RawMemory.allocate α n).buffer 0
      (by
        simp [RawMemory.allocate]
        have : v.capacity < n := by omega
        simp [Vector.capacity, RawMemory.capacity] at this
        omega) i]
    rw [if_pos (show 0 ≤ i ∧ i < 0 + v.size by omega)]
    have h3 : 0 + (i - 0) = i := by omega
    rw [h3]
    rfl

theorem Vector.capacity_mk {α : Type} (b : Buf α) (n : Nat) :
    (⟨⟨b⟩, n⟩ : Vector α).capacity = b.length := rfl

theorem Vector.size_mk {α : Type} (b : Buf α) (n : Nat) :
    (⟨⟨b⟩, n⟩ : Vector α).size = n := rfl

theorem Vector.elemAt_mk {α : Type} (b : Buf α) (n i : Nat) :
    (⟨⟨b⟩, n⟩ : Vector α).elemAt i = bufGet b i := rfl

theorem ite_and_left_false {β : Type} {p q : Prop} [Decidable p]
    [Decidable q] {x y : β} (h : ¬ p) : (if p ∧ q then x else y) = y :=
  if_neg (fun hc => h hc.1)

theorem Vector.capacity_pushBack {α : Type} (v : Vector α) (x : α)
    (hwf : v.size ≤ v.capacity) :
    (v.pushBack x).capacity =
      if v.capacity = 0 then 1
      else if v.size = v.capacity then v.capacity * 2 else v.capacity := by
  simp only [Vector.pushBack]
  by_cases hc : v.capacity = 0
  · rw [if_pos hc, if_pos hc,
      if_neg (show ¬ ((v.reserve 1).size = (v.reserve 1).capacity) by
        rw [Vector.size_reserve, Vector.capacity_reserve,
          if_neg (show ¬ 1 ≤ v.capacity by omega)]
        omega)]
    rw [Vector.capacity_mk, length_bufSet]
    have h1 := Vector.capacity_reserve v 1
    rw [if_neg (show ¬ 1 ≤ v.capacity by omega)] at h1
    exact h1
  · rw [if_neg hc, if_neg hc]
    by_cases hs : v.size = v.capacity
    · rw [if_pos hs, if_pos hs, Vector.capacity_mk, length_uninitCopyN,
        length_bufSet]
      simp [RawMemory.allocate]
    · rw [if_neg hs, if_neg hs, Vector.capacity_mk, length_bufSet]
      rfl

theorem Vector.capacity_emplaceBack {α : Type} (v : Vector α) (x : α)
    (hwf : v.size ≤ v.capacity) :
    (v.emplaceBack x).1.capacity =
      if v.capacity = 0 then 1
      else if v.size = v.capacity then v.capacity * 2 else v.capacity := by
  simp only [Vector.emplaceBack]
  by_cases hc : v.capacity = 0
  · rw [if_pos hc, if_pos hc,
      if_neg (show ¬ ((v.reserve 1).size = (v.reserve 1).capacity) by
        rw [Vector.size_reserve, Vector.capacity_reserve,
          if_neg (show ¬ 1 ≤ v.capacity by omega)]
        omega)]
    rw [Vector.capacity_mk, length_bufSet]
    have h1 := Vector.capacity_reserve v 1
    rw [if_neg (show ¬ 1 ≤ v.capacity by omega)] at h1
    exact h1
  · rw [if_neg hc, if_neg hc]
    by_cases hs : v.size = v.capacity
    · rw [if_pos hs, if_pos hs, Vector.capacity_mk, length_uninitCopyN,
        length_bufSet]
      simp [RawMemory.allocate]
    · rw [if_neg hs, if_neg hs, Vector.capacity_mk, length_bufSet]
      rfl

/-- Claim C1: the claim states that for 0 < Size() < Capacity() and pos in
[begin, end], the in-place Emplace yields the old prefix, the new element,
then the old suffix, with size incremented.  Evaluation at the failing input
(vector 1, 2, 3 of size 3 and capacity 4, Emplace at position 1 of value 9):
the result has size 4 and iterator index 1 as claimed, and slots 0, 1, 2
hold 1, 9, 2, but slot 3 is uninitialized memory instead of the old suffix
element 3 — the first move_backward call at line 327 self-assigns slot 2
(its destination range ends at data + size, so it is slot size - 1 itself)
instead of constructing the old last element into slot size, so the old
last element is lost. -/
theorem C1_emplace_inplace_eval :
    ((vec123.emplace 1 9).1.size = 4 ∧ (vec123.emplace 1 9).2 = 1) ∧
    (vec123.emplace 1 9).1.elemAt 0 = some 1 ∧
    (vec123.emplace 1 9).1.elemAt 1 = some 9 ∧
    (vec123.emplace 1 9).1.elemAt 2 = some 2 ∧
    (vec123.emplace 1 9).1.elemAt 3 = none := by decide

/-- Claim C2: the claim states that inserting a value aliasing an element of
the same container does not corrupt anything, and that for the vector
1, 2, 3 the call Insert(begin, v[2]) yields 3, 1, 2, 3.  Evaluation at that
very input: the aliased value is copied out first as designed, and slots
0, 1, 2 hold 3, 1, 2, but slot 3 is uninitialized memory instead of 3,
because the in-place Emplace path loses the old last element. -/
theorem C2_insert_aliased_eval :
    (vec123.insertAliased 0 2).1.size = 4 ∧
    (vec123.insertAliased 0 2).1.elemAt 0 = some 3 ∧
    (vec123.insertAliased 0 2).1.elemAt 1 = some 1 ∧
    (vec123.insertAliased 0 2).1.elemAt 2 = some 2 ∧
    (vec123.insertAliased 0 2).1.elemAt 3 = none := by decide

/-- Claim C3: the claim states that after every sequence of operations the
slots [0, size) hold live objects, the slots [size, capacity) are raw and
size ≤ capacity.  The vector 1, 2, 3 built by three pushes satisfies the
invariant, but one further in-place Emplace at position 1 breaks it: the
result has size 4 yet slot 3 holds no live object. -/
theorem C3_invariant_broken_by_emplace :
    Vector.invariantHolds vec123 ∧
      ¬ Vector.invariantHolds (vec123.emplace 1 9).1 := by decide

/-- Claim C4, counterexample: the claim states that move-assignment leaves
the source empty.  Take v with one element and w with one element and
move-assign w into v: the code swaps storage and size wholesale, so
afterwards the source w holds the one prior element of v and its size is 1,
not 0. -/
theorem C4_counterexample :
    ((Vector.moveAssign (⟨⟨[some 1]⟩, 1⟩ : Vector Nat)
      (⟨⟨[some 2]⟩, 1⟩ : Vector Nat)).2).size ≠ 0 := by decide

/-- Claim C4 (amended): move-construction leaves the source valid and empty
(size 0, capacity 0) and the destination holds exactly the prior elements of
the source in order; move-assignment exchanges the contents of destination
and source, so the destination holds exactly the prior elements of the
source in order while the source receives the prior contents of the
destination, and is therefore empty only when the destination was. -/
theorem C4_move_semantics {α : Type} (v w : Vector α) :
    (Vector.moveConstruct w).1.size = w.size ∧
    (∀ i, (Vector.moveConstruct w).1.elemAt i = w.elemAt i) ∧
    (Vector.moveConstruct w).2.size = 0 ∧
    (Vector.moveConstruct w).2.capacity = 0 ∧
    (Vector.moveAssign v w).1.size = w.size ∧
    (∀ i, (Vector.moveAssign v w).1.elemAt i = w.elemAt i) ∧
    (Vector.moveAssign v w).2.size = v.size ∧
    (∀ i, (Vector.moveAssign v w).2.elemAt i = v.elemAt i) :=
  ⟨rfl, fun _ => rfl, rfl, rfl, rfl, fun _ => rfl, rfl, fun _ => rfl⟩

/-- Claim C5, counterexample: the claim states that a throwing construction
during PushBack leaves the capacity exactly as before the call, including a
PushBack starting from capacity 0.  On an empty vector PushBack first runs
Reserve(1), and only then attempts the construction; when that throws the
capacity is 1, no longer the 0 it was before the call. -/
theorem C5_counterexample :
    (Vector.pushBackThrowingCtor (Vector.mkEmpty Nat)).capacity ≠
      (Vector.mkEmpty Nat).capacity := by decide

/-- Claim C5 (amended): a throwing construction of the new element leaves
the size and all element values exactly as before the call for PushBack,
Insert/Emplace and Reserve, and leaves the capacity unchanged as well except
for a PushBack (or EmplaceBack) starting from capacity 0, where the already
completed Reserve(1) leaves capacity 1. -/
theorem C5_throwing_ctor_state {α : Type} (v : Vector α) (pos n : Nat)
    (hwf : v.size ≤ v.capacity) :
    (Vector.pushBackThrowingCtor v).size = v.size ∧
    (∀ i, i < v.size →
      (Vector.pushBackThrowingCtor v).elemAt i = v.elemAt i) ∧
    (Vector.pushBackThrowingCtor v).capacity =
      (if v.capacity = 0 then 1 else v.capacity) ∧
    Vector.emplaceThrowingCtor v pos = v ∧
    Vector.reserveThrowingCopy v n = v := by
  unfold Vector.pushBackThrowingCtor Vector.emplaceThrowingCtor
    Vector.reserveThrowingCopy
  by_cases hc : v.capacity = 0
  · rw [if_pos hc, if_pos hc]
    have hs : v.size = 0 := by omega
    refine ⟨Vector.size_reserve v 1, ?_, ?_, rfl, rfl⟩
    · intro i hi
      exact absurd hi (by omega)
    · rw [Vector.capacity_reserve]
      rw [if_neg (by omega)]
  · rw [if_neg hc, if_neg hc]
    exact ⟨rfl, fun _ _ => rfl, rfl, rfl, rfl⟩

/-- Witness for C5 (amended) at the empty vector: the hypothesis size ≤
capacity holds and the capacity after the throwing PushBack is 1. -/
theorem C5_throwing_ctor_state_witness :
    (Vector.pushBackThrowingCtor (Vector.mkEmpty Nat)).capacity =
      (if (Vector.mkEmpty Nat).capacity = 0 then 1
       else (Vector.mkEmpty Nat).capacity) :=
  (C5_throwing_ctor_state (Vector.mkEmpty Nat) 0 0 (by decide)).2.2.1

/-- Claim C6: capacity growth of PushBack and EmplaceBack: a push on
capacity 0 yields capacity 1, a push at full nonzero capacity reallocates to
exactly double the capacity, and a push with spare capacity leaves the
capacity unchanged; capacity snapshots along a push sequence therefore
follow 0, 1, 2, 4, 8 and so on. -/
theorem C6_growth_doubling {α : Type} (v : Vector α) (x : α)
    (hwf : v.size ≤ v.capacity) :
    (v.pushBack x).capacity =
      (if v.capacity = 0 then 1
       else if v.size = v.capacity then v.capacity * 2 else v.capacity) ∧
    (v.emplaceBack x).1.capacity =
      (if v.capacity = 0 then 1
       else if v.size = v.capacity then v.capacity * 2 else v.capacity) :=
  ⟨Vector.capacity_pushBack v x hwf, Vector.capacity_emplaceBack v x hwf⟩

/-- Witness for C6 at the full vector 1, 2, 3 of capacity 4 after one more
push, so the spare-capacity branch applies and the capacity stays 4. -/
theorem C6_growth_doubling_witness :
    (vec123.pushBack 9).capacity =
      (if vec123.capacity = 0 then 1
       else if vec123.size = vec123.capacity then vec123.capacity * 2
       else vec123.capacity) :=
  (C6_growth_doubling vec123 9 (by decide)).1

/-- Claim C9: Reserve(n) with n ≤ capacity is a no-op returning the vector
unchanged; with n > capacity it makes the capacity exactly n while the size
and every element value are preserved. -/
theorem C9_reserve_spec {α : Type} (v : Vector α) (n : Nat)
    (hwf : v.size ≤ v.capacity) :
    (n ≤ v.capacity → v.reserve n = v) ∧
    (v.capacity < n →
      (v.reserve n).capacity = n ∧ (v.reserve n).size = v.size ∧
      ∀ i, i < v.size → (v.reserve n).elemAt i = v.elemAt i) := by
  constructor
  · intro h
    unfold Vector.reserve
    rw [if_pos h]
  · intro h
    refine ⟨?_, Vector.size_reserve v n, ?_⟩
    · rw [Vector.capacity_reserve, if_neg (by omega)]
    · intro i hi
      exact Vector.elemAt_reserve v n hwf i hi

/-- Witness for C9 at the vector 1, 2, 3 of capacity 4 and n = 10: the
growing branch applies and the capacity becomes exactly 10. -/
theorem C9_reserve_spec_witness :
    (vec123.reserve 10).capacity = 10 :=
  ((C9_reserve_spec vec123 10 (by decide)).2 (by decide)).1

/-- Claim C7: copy-assignment from a distinct vector makes the size equal to
the source size and every element value equal to the matching source value
in order; and when the source size exceeds the destination capacity the code
builds a full temporary copy before swapping it in, so a throw during that
copying leaves the destination untouched.  The source, passed by constant
reference, is never written. -/
theorem C7_copy_assign_spec {α : Type} (v w : Vector α)
    (hwf : v.size ≤ v.capacity) :
    (v.copyAssign w).size = w.size ∧
    (∀ i, i < w.size → (v.copyAssign w).elemAt i = w.elemAt i) ∧
    (w.size > v.capacity → Vector.copyAssignThrowingCopy v w = v) := by
  have hlen : v.size ≤ v.data.buffer.length := hwf
  refine ⟨?_, ?_, fun _ => rfl⟩
  · unfold Vector.copyAssign
    by_cases h1 : w.size > v.capacity
    · rw [if_pos h1]
      rfl
    · rw [if_neg h1]
      by_cases h2 : w.size < v.size
      · rw [if_pos h2]
      · rw [if_neg h2]
  · intro i hi
    have hcap : v.capacity = v.data.buffer.length := rfl
    unfold Vector.copyAssign
    by_cases h1 : w.size > v.capacity
    · rw [if_pos h1]
      show bufGet (uninitCopyN w.data.buffer 0 w.size
        (List.replicate w.size none) 0) i = w.elemAt i
      rw [bufGet_uninitCopyN w.size w.data.buffer 0
        (List.replicate w.size none) 0 (by simp) i,
        if_pos (show 0 ≤ i ∧ i < 0 + w.size by omega)]
      have h3 : 0 + (i - 0) = i := by omega
      rw [h3]
      rfl
    · rw [if_neg h1]
      by_cases h2 : w.size < v.size
      · rw [if_pos h2]
        show bufGet (destroyN
          (uninitCopyN w.data.buffer 0 w.size v.data.buffer 0)
          w.size (v.size - w.size)) i = w.elemAt i
        rw [bufGet_destroyN,
          if_neg (show ¬ (w.size ≤ i ∧ i < w.size + (v.size - w.size))
            by omega),
          bufGet_uninitCopyN w.size w.data.buffer 0 v.data.buffer 0
            (by omega) i,
          if_pos (show 0 ≤ i ∧ i < 0 + w.size by omega)]
        have h3 : 0 + (i - 0) = i := by omega
        rw [h3]
        rfl
      · rw [if_neg h2]
        show bufGet (uninitCopyN w.data.buffer v.size (w.size - v.size)
          (uninitCopyN w.data.buffer 0 v.size v.data.buffer 0) v.size) i =
          w.elemAt i
        rw [bufGet_uninitCopyN (w.size - v.size) w.data.buffer v.size
          (uninitCopyN w.data.buffer 0 v.size v.data.buffer 0) v.size
          (by rw [length_uninitCopyN]; omega) i]
        by_cases h3 : v.size ≤ i ∧ i < v.size + (w.size - v.size)
        · rw [if_pos h3]
          have h4 : v.size + (i - v.size) = i := by omega
          rw [h4]
          rfl
        · rw [if_neg h3,
            bufGet_uninitCopyN v.size w.data.buffer 0 v.data.buffer 0
              (by omega) i,
            if_pos (show 0 ≤ i ∧ i < 0 + v.size by omega)]
          have h4 : 0 + (i - 0) = i := by omega
          rw [h4]
          rfl

/-- Witness for C7: assigning the vector 1, 2, 3 into a one-element vector
of smaller capacity gives the size of the source. -/
theorem C7_copy_assign_spec_witness :
    (Vector.copyAssign ((Vector.mkEmpty Nat).pushBack 5) vec123).size =
      vec123.size :=
  (C7_copy_assign_spec ((Vector.mkEmpty Nat).pushBack 5) vec123
    (by decide)).1

/-- Claim C8: Erase at a dereferenceable position pos removes exactly the
element at pos: the prefix [0, pos) keeps its values, the elements after pos
shift one slot toward the head preserving order, the size decrements by one,
and the returned iterator index is pos, the slot now holding the element
that followed the erased one, which equals the new end exactly when the last
element was erased. -/
theorem C8_erase_spec {α : Type} (v : Vector α) (pos : Nat)
    (hwf : v.size ≤ v.capacity) (hpos : pos < v.size) :
    (v.erase pos).1.size = v.size - 1 ∧
    (v.erase pos).2 = pos ∧
    (∀ i, i < pos → (v.erase pos).1.elemAt i = v.elemAt i) ∧
    (∀ i, pos ≤ i → i < v.size - 1 →
      (v.erase pos).1.elemAt i = v.elemAt (i + 1)) := by
  have hlen : v.size ≤ v.data.buffer.length := hwf
  refine ⟨rfl, rfl, ?_, ?_⟩
  · intro i hi
    show bufGet (bufSet
      (moveForwardAux v.data.buffer (pos + 1) pos (v.size - (pos + 1)))
      (v.size - 1) none) i = v.elemAt i
    rw [bufGet_bufSet, ite_and_left_false (show ¬ v.size - 1 = i by omega),
      bufGet_moveForwardAux (v.size - (pos + 1)) v.data.buffer (pos + 1)
        pos (by omega) (by omega) i,
      if_neg (show ¬ (pos ≤ i ∧ i < pos + (v.size - (pos + 1))) by omega)]
    rfl
  · intro i h1 h2
    show bufGet (bufSet
      (moveForwardAux v.data.buffer (pos + 1) pos (v.size - (pos + 1)))
      (v.size - 1) none) i = v.elemAt (i + 1)
    rw [bufGet_bufSet, ite_and_left_false (show ¬ v.size - 1 = i by omega),
      bufGet_moveForwardAux (v.size - (pos + 1)) v.data.buffer (pos + 1)
        pos (by omega) (by omega) i,
      if_pos (show pos ≤ i ∧ i < pos + (v.size - (pos + 1)) by omega)]
    have h3 : pos + 1 + (i - pos) = i + 1 := by omega
    rw [h3]
    rfl

/-- Witness for C8 at the vector 1, 2, 3, erasing the middle position 1: the
slot at the returned index 1 now holds the value that was at index 2,
namely 3. -/
theorem C8_erase_spec_witness :
    (vec123.erase 1).1.elemAt 1 = vec123.elemAt 2 :=
  (C8_erase_spec vec123 1 (by decide) (by decide)).2.2.2 1 (by decide)
    (by decide)

/-- Claim C10: EmplaceBack appends exactly one element constructed from the
arguments: the size increments by one, all prior element values are
unchanged, the slot at index old size holds the new value, and the returned
reference is to that new last element. -/
theorem C10_emplace_back_spec {α : Type} (v : Vector α) (x : α)
    (hwf : v.size ≤ v.capacity) :
    (v.emplaceBack x).1.size = v.size + 1 ∧
    (v.emplaceBack x).2 = v.size ∧
    (∀ i, i < v.size → (v.emplaceBack x).1.elemAt i = v.elemAt i) ∧
    (v.emplaceBack x).1.elemAt v.size = some x := by
  have hcap : v.capacity = v.data.buffer.length := rfl
  simp only [Vector.emplaceBack]
  by_cases hc : v.capacity = 0
  · have hs0 : v.size = 0 := by omega
    have e1 : (v.reserve 1).size = v.size := Vector.size_reserve v 1
    have e2 : (v.reserve 1).data.buffer.length = 1 := by
      have h := Vector.capacity_reserve v 1
      rw [if_neg (show ¬ 1 ≤ v.capacity by omega)] at h
      exact h
    rw [if_pos hc,
      if_neg (show ¬ ((v.reserve 1).size = (v.reserve 1).capacity) by
        have e2c : (v.reserve 1).capacity = 1 := e2
        omega)]
    refine ⟨by rw [Vector.size_mk, e1], ?_, ?_, ?_⟩
    · show (⟨⟨bufSet (v.reserve 1).data.buffer (v.reserve 1).size
        (some x)⟩, (v.reserve 1).size + 1⟩ : Vector α).size - 1 = v.size
      rw [Vector.size_mk, e1]
      omega
    · intro i hi
      exact absurd hi (by omega)
    · rw [Vector.elemAt_mk, bufGet_bufSet,
        if_pos (show (v.reserve 1).size = v.size ∧
          (v.reserve 1).size < (v.reserve 1).data.buffer.length by omega)]
  · rw [if_neg hc]
    by_cases hs : v.size = v.capacity
    · rw [if_pos hs]
      have hb1 : 0 + v.size ≤ (bufSet
          (RawMemory.allocate α (v.capacity * 2)).buffer v.size
          (some x)).length := by
        rw [length_bufSet]
        simp only [RawMemory.allocate, List.length_replicate]
        omega
      refine ⟨rfl, ?_, ?_, ?_⟩
      · show v.size + 1 - 1 = v.size
        omega
      · intro i hi
        rw [Vector.elemAt_mk,
          bufGet_uninitCopyN v.size v.data.buffer 0
            (bufSet (RawMemory.allocate α (v.capacity * 2)).buffer v.size
              (some x)) 0 hb1 i,
          if_pos (show 0 ≤ i ∧ i < 0 + v.size by omega)]
        have h3 : 0 + (i - 0) = i := by omega
        rw [h3]
        rfl
      · have hlt2 : v.size <
            (RawMemory.allocate α (v.capacity * 2)).buffer.length := by
          show v.size <
            (List.replicate (v.capacity * 2) (none : Option α)).length
          rw [List.length_replicate]
          omega
        rw [Vector.elemAt_mk,
          bufGet_uninitCopyN v.size v.data.buffer 0
            (bufSet (RawMemory.allocate α (v.capacity * 2)).buffer v.size
              (some x)) 0 hb1 v.size,
          if_neg (show ¬ (0 ≤ v.size ∧ v.size < 0 + v.size) by omega),
          bufGet_bufSet,
          if_pos (show v.size = v.size ∧ v.size <
            (RawMemory.allocate α (v.capacity * 2)).buffer.length
            from ⟨rfl, hlt2⟩)]
    · rw [if_neg hs]
      refine ⟨rfl, ?_, ?_, ?_⟩
      · show v.size + 1 - 1 = v.size
        omega
      · intro i hi
        rw [Vector.elemAt_mk, bufGet_bufSet,
          ite_and_left_false (show ¬ v.size = i by omega)]
        rfl
      · rw [Vector.elemAt_mk, bufGet_bufSet,
          if_pos (show v.size = v.size ∧ v.size < v.data.buffer.length
            by omega)]

/-- Witness for C10 at the vector 1, 2, 3: the appended element 7 lands at
index 3, the old size. -/
theorem C10_emplace_back_spec_witness :
    (vec123.emplaceBack 7).1.elemAt vec123.size = some 7 :=
  (C10_emplace_back_spec vec123 7 (by decide)).2.2.2

end AdvVec
